import Mathlib

/-!
# Verification of the winget-mirror Package State & Synchronization Engine

A shallow embedding of the core logic of `winget_mirror_core.py` and
`tasks.py`: version parsing and resolution, the download orchestrator
(`process_package`), hash verification (`WingetPackage.validate_hashes`),
retention planning (the selection logic of the `cleanup` task), and the
manifest patcher (`WingetMirrorManager.patch_repo`).

External effects are made explicit: the filesystem under
`downloads/{publisher}/{package}` is a `Disk` value, the manifest tree and
the blob fetcher are fields of an `Env` record, and SHA-256 is an abstract
deterministic function `hash : String → String` passed as a parameter.
Python dicts are modelled as insertion-ordered association lists with
unique keys (`alistSet` replaces in place or appends, like dict
assignment).  An uncaught Python exception is modelled as `Except.error`.
-/

namespace WingetMirror

/-! ## Association lists (Python dict semantics) -/

/-- `alistGet l k` is `l[k]` / `l.get(k)`: the value at the first
occurrence of key `k`. -/
def alistGet {α β : Type} [DecidableEq α] : List (α × β) → α → Option β
  | [], _ => none
  | (k', v') :: t, k => if k' = k then some v' else alistGet t k

/-- `alistSet l k v` is `l[k] = v`: replace the first occurrence of `k`
in place, else append — insertion-ordered dict assignment. -/
def alistSet {α β : Type} [DecidableEq α] : List (α × β) → α → β → List (α × β)
  | [], k, v => [(k, v)]
  | (k', v') :: t, k, v => if k' = k then (k, v) :: t else (k', v') :: alistSet t k v

theorem alistGet_alistSet_self {α β : Type} [DecidableEq α]
    (l : List (α × β)) (k : α) (v : β) : alistGet (alistSet l k v) k = some v := by
  induction l with
  | nil => simp [alistGet, alistSet]
  | cons p t ih =>
    by_cases h : p.1 = k
    · simp [alistSet, alistGet, h]
    · simp [alistSet, alistGet, h, ih]

theorem alistGet_alistSet_ne {α β : Type} [DecidableEq α]
    (l : List (α × β)) (k k' : α) (v : β) (h : k' ≠ k) :
    alistGet (alistSet l k v) k' = alistGet l k' := by
  induction l with
  | nil => simp [alistGet, alistSet, Ne.symm h]
  | cons p t ih =>
    by_cases hk : p.1 = k
    · simp [alistSet, alistGet, hk, Ne.symm h]
    · simp [alistSet, alistGet, hk, ih]

/-! ## Character-level string helpers

Implemented by structural recursion on the character list so that every
concrete scenario below evaluates inside the kernel. -/

/-- `s.split(sep)` for a one-character separator, Python semantics:
splitting the empty string gives `[""]`. -/
def splitChars (sep : Char) : List Char → List (List Char)
  | [] => [[]]
  | c :: cs =>
    if c = sep then [] :: splitChars sep cs
    else
      match splitChars sep cs with
      | [] => [[c]]
      | h :: t => (c :: h) :: t

/-- `sep.join(parts)`. -/
def joinSep (sep : Char) : List (List Char) → List Char
  | [] => []
  | [x] => x
  | x :: xs => x ++ sep :: joinSep sep xs

/-- Strip surrounding whitespace. -/
def trimChars (l : List Char) : List Char :=
  ((l.dropWhile Char.isWhitespace).reverse.dropWhile Char.isWhitespace).reverse

/-- Value of a non-empty decimal digit run. -/
def digitsToNat (l : List Char) : Nat :=
  l.foldl (fun n c => n * 10 + (c.toNat - 48)) 0

/-! ## Version parsing (`parse_version_safe`, lines 20–36) -/

/-- Models Python `int(s)` on a dot-separated version part: optional
surrounding whitespace, an optional single `+`/`-` sign, then a non-empty
run of decimal digits (digit-group underscores, non-ASCII digits and
other exotic accepted forms are outside the modelled subset). -/
def pyInt (s : List Char) : Option Int :=
  let t := trimChars s
  let signedCore : Bool × List Char :=
    match t with
    | '-' :: rest => (true, rest)
    | '+' :: rest => (false, rest)
    | _ => (false, t)
  let core := signedCore.2
  if core.isEmpty || !core.all Char.isDigit then none
  else if signedCore.1 then some (-(digitsToNat core : Int))
  else some (digitsToNat core : Int)

/-- Modelled from the external `packaging` library: `packaging.version.parse`
restricted to plain release versions — optional surrounding whitespace, an
optional `v`/`V` prefix, then `N(.N)*` with each part a non-empty digit
run.  PEP 440 pre, post, dev and local segments and epochs are outside the
modelled subset (no claim below depends on them); strings outside the
subset are rejected, as `packaging` rejects every string this development
evaluates the parser on (`""`, `"-1"`, `"-1.0.0"`).  The result is the
release tuple, the comparison key for such versions. -/
def pep440Parse (s : String) : Option (List Nat) :=
  let t := trimChars s.data
  let t := match t with
    | 'v' :: rest => rest
    | 'V' :: rest => rest
    | _ => t
  let parts := splitChars '.' t
  if parts.all (fun p => !p.isEmpty && p.all Char.isDigit) then
    some (parts.map digitsToNat)
  else
    none

/-- `parse_version_safe` (lines 20–36): try strict parsing; on failure,
take the dot-separated parts' integer prefix (Python `int`, stopping at
the first part that fails coercion), pad to at least three components with
zeros, and re-parse the rebuilt string with `Version(...)`.  The rebuilt
string `'.'.join(str(p) for p in parts)` is accepted by `packaging`
exactly when no collected part is negative (for `p ≥ 0`, `str(p)` is a
plain digit run); a negative part makes the uncaught `InvalidVersion`
escape, modelled as `.error`. -/
def parse_version_safe (v : String) : Except String (List Nat) :=
  match pep440Parse v with
  | some key => .ok key
  | none =>
    let parts : List Int := ((splitChars '.' v.data).foldl
      (fun acc p => match acc.2 with
        | false => acc
        | true => match pyInt p with
          | some n => (acc.1 ++ [n], true)
          | none => (acc.1, false))
      (([] : List Int), true)).1
    let parts := parts ++ List.replicate (3 - parts.length) 0
    if parts.all (fun p => 0 ≤ p) then
      .ok (parts.map Int.toNat)
    else
      .error "InvalidVersion"

/-- Does a release tuple contain a positive component? -/
def anyPos : List Nat → Bool
  | [] => false
  | b :: bs => if 0 < b then true else anyPos bs

/-- Comparison of release tuples: PEP 440 release ordering, i.e.
lexicographic with the shorter tuple padded with zeros (a tuple is never
less than a tuple of zeros, so comparison against `[]` is immediate). -/
def keyLt : List Nat → List Nat → Bool
  | [], bs => anyPos bs
  | _ :: _, [] => false
  | a :: as, b :: bs => if a < b then true else if b < a then false else keyLt as bs

/-- The ordering key of a version label; callers only apply it to labels
that already passed the `parse_version_safe` filter, so the default is
never reached there. -/
def versionKey (v : String) : List Nat :=
  match parse_version_safe v with
  | .ok k => k
  | .error _ => []

/-- Python `max(l, key=f)`: left fold keeping the first maximal element. -/
def pyMax (key : String → List Nat) (l : List String) : Option String :=
  l.foldl
    (fun acc x => match acc with
      | none => some x
      | some cur => if keyLt (key cur) (key x) then some x else acc)
    none

/-- The defensive candidate filter (lines 90–97 / 428–435): keep a version
label iff `parse_version_safe` does not raise on it. -/
def filterValidVersions (versions : List String) : List String :=
  versions.filter (fun v => (parse_version_safe v).isOk)

/-- The core of `WingetPackage.get_latest_version` (lines 418–440) after
the directory listing: filter, then `max(valid_versions,
key=parse_version_safe)`. -/
def getLatestVersionCore (versions : List String) : Option String :=
  let valid := filterValidVersions versions
  if valid.isEmpty then none
  else pyMax versionKey valid

/-! ## State store and filesystem model -/

/-- A Version Entry (state.json `versions[v]`, created at lines 134–139). -/
structure VersionEntry where
  git_rev : String
  /-- `files`: filename → recorded sha256 hex digest. -/
  files : List (String × String)
  timestamp : String
  pinned : Bool
  deriving DecidableEq, Repr

/-- A package's record in `state['downloads']`: the versions dict, plus the
package-level `timestamp` set at line 210 (absent until first success). -/
structure PackageState where
  versions : List (String × VersionEntry)
  timestamp : Option String
  deriving DecidableEq, Repr

/-- `state['downloads']`: package id → package state. -/
def Downloads : Type := List (String × PackageState)

instance : DecidableEq Downloads := inferInstanceAs (DecidableEq (List (String × PackageState)))

/-- The `downloads/{publisher}/{package}` subtree for the package a call
works on: the set of existing version directories, and the regular files
keyed by (version directory, filename) with their byte content. -/
structure Disk where
  dirs : List String
  files : List ((String × String) × String)
  deriving DecidableEq, Repr

/-- `download_dir.mkdir(parents=True, exist_ok=True)` (line 127). -/
def mkdirVersion (d : Disk) (version : String) : Disk :=
  { d with dirs := if version ∈ d.dirs then d.dirs else d.dirs ++ [version] }

/-- Read `downloads/{pub}/{pkg}/{version}/{filename}` if it exists. -/
def diskGet (d : Disk) (version filename : String) : Option String :=
  alistGet d.files (version, filename)

/-- Write (create or overwrite) a file. -/
def diskWrite (d : Disk) (version filename content : String) : Disk :=
  { d with files := alistSet d.files (version, filename) content }

/-- One entry of a manifest's `Installers` list, with optional fields as
`dict.get` returns them. -/
structure Installer where
  architecture : Option String
  installerUrl : Option String
  installerSha256 : Option String
  deriving DecidableEq, Repr

/-- The external world of one `process_package` call: the manifest tree
(repository provider) and the blob fetcher, plus the two wall-clock reads.
Everything is a pure field, so a call is deterministic in its `Env`. -/
structure Env where
  /-- `package_path.is_dir()` (line 86). -/
  packageDirExists : Bool
  /-- The version subdirectory names of the package directory (line 90). -/
  versionDirs : List String
  /-- Does `{pub}.{pkg}.yaml` exist for a version (line 112)? -/
  manifestExists : String → Bool
  /-- Does `{pub}.{pkg}.installer.yaml` exist for a version (line 119)? -/
  installerManifestExists : String → Bool
  /-- The `Installers` list of the installer-specific manifest. -/
  installerManifestInstallers : String → List Installer
  /-- The `Installers` list of the general manifest (default `[]`). -/
  manifestInstallers : String → List Installer
  /-- The blob fetcher: `requests.get` + `raise_for_status` + streaming;
  `.error` is a caught `RequestException`/`HTTPError`, `.ok` a fully
  written body (a failure while streaming would be an uncaught crash and
  is outside this model). -/
  fetch : String → Except String String
  /-- `repo.head.commit.hexsha` (line 135). -/
  headRev : String
  /-- `datetime.now().isoformat()` at line 137. -/
  now : String
  /-- `datetime.now().isoformat()` at line 210. -/
  now2 : String

/-- `package_id.split('.', 1)` with unpacking into two names: `none`
models the caught `ValueError` when there is no dot (lines 75–79). -/
def splitDot1 (s : String) : Option (String × String) :=
  match splitChars '.' s.data with
  | [] => none
  | [_] => none
  | a :: rest => some (String.mk a, String.mk (joinSep '.' rest))

/-- Installer truthiness test `inst.get("InstallerUrl")` (lines 146, 151). -/
def truthyUrl (i : Installer) : Bool :=
  match i.installerUrl with
  | some s => !s.data.isEmpty
  | none => false

/-- Installer selection (lines 143–153): first `x64` entry with a truthy
URL, else first `x86` entry with a truthy URL. -/
def chooseInstaller (l : List Installer) : Option Installer :=
  match l.find? (fun i => i.architecture = some "x64" && truthyUrl i) with
  | some i => some i
  | none => l.find? (fun i => i.architecture = some "x86" && truthyUrl i)

/-- `Path(url).name`: the last non-empty slash-separated component. -/
def pathName (url : String) : String :=
  String.mk ((((splitChars '/' url.data).filter (fun c => !c.isEmpty)).getLast?).getD [])

/-- Lines 129–139: create the package record if absent, then assign the
(fresh) Version Entry at the target version key. -/
def setVersionEntry (d : Downloads) (pid version : String) (e : VersionEntry) : Downloads :=
  match alistGet d pid with
  | some ps => alistSet d pid { ps with versions := alistSet ps.versions version e }
  | none => alistSet d pid { versions := alistSet [] version e, timestamp := none }

/-- Read `downloaded[pid]['versions'][v]`. -/
def getVersionEntry (d : Downloads) (pid version : String) : Option VersionEntry :=
  (alistGet d pid).bind (fun ps => alistGet ps.versions version)

/-- Line 210: `downloaded[package_id]['timestamp'] = now`; the entry is
known to exist there, so the `none` arm is unreachable at call sites. -/
def setPkgTimestamp (d : Downloads) (pid ts : String) : Downloads :=
  match alistGet d pid with
  | some ps => alistSet d pid { ps with timestamp := some ts }
  | none => d

/-- The observable outcome of one `process_package` call: the mutated
`downloads` dict, the mutated disk, the returned bool, and the final
value of the `downloaded_new` local (which selects the
"already up to date" message on the success path). -/
structure PPResult where
  downloads : Downloads
  disk : Disk
  ok : Bool
  downloadedNew : Bool
  deriving DecidableEq

/-- Lines 208–214: set the package-level timestamp and return `True` iff
the target entry's files dict is non-empty. -/
def finalize (d : Downloads) (k : Disk) (pid : String) (e : VersionEntry)
    (now2 : String) (dn : Bool) : PPResult :=
  if e.files.isEmpty then ⟨d, k, false, dn⟩
  else ⟨setPkgTimestamp d pid now2, k, true, dn⟩

/-- The manifest list used for a target version (lines 118–124): prefer
the installer-specific manifest when it exists. -/
def installersOf (env : Env) (target : String) : List Installer :=
  if env.installerManifestExists target then env.installerManifestInstallers target
  else env.manifestInstallers target

/-- The resolve phase of `process_package` (lines 75–113): id splitting,
directory checks, the defensive parse filter, target selection (explicit
pin or latest), and the manifest-existence check.  `.error` models the
uncaught `IndexError` of `pub[0]` (line 82) when the publisher part is
empty; `.ok none` is one of the early `return False` exits that leave all
state untouched; `.ok (some target)` proceeds to the download phase. -/
def preflight (env : Env) (package_id : String) (version_filter : Option String) :
    Except String (Option String) :=
  match splitDot1 package_id with
  | none => .ok none
  | some (pub, _pkg) =>
    if pub.data.isEmpty then .error "IndexError"
    else if !env.packageDirExists then .ok none
    else
      let valid_versions := filterValidVersions env.versionDirs
      if valid_versions.isEmpty then .ok none
      else
        let target? : Option String :=
          match version_filter with
          | some vfil => if vfil ∈ valid_versions then some vfil else none
          | none => pyMax versionKey valid_versions
        match target? with
        | none => .ok none
        | some target =>
          if !env.manifestExists target then .ok none else .ok (some target)

/-- The download phase of `process_package` (lines 118–214), entered with
the resolved target version: manifest choice, mkdir, the unconditional
overwrite of the Version Entry (lines 129–139), installer selection, the
exists-on-disk repair path or the fetch, hash recording, and the final
bookkeeping.  The hash-mismatch warning (lines 200–201) only prints and
has no state effect.  Console output is not modelled. -/
def downloadPhase (hash : String → String) (env : Env) (downloaded : Downloads)
    (disk : Disk) (package_id target : String) (version_filter : Option String) :
    PPResult :=
  let disk1 := mkdirVersion disk target
  let fresh : VersionEntry := ⟨env.headRev, [], env.now, version_filter.isSome⟩
  let d2 := setVersionEntry downloaded package_id target fresh
  match chooseInstaller (installersOf env target) with
  | none => ⟨d2, disk1, false, false⟩
  | some inst =>
    let url := inst.installerUrl.getD ""
    let filename := pathName url
    match diskGet disk1 target filename with
    | some content =>
      let entry1 :=
        if (alistGet fresh.files filename).isNone then
          { fresh with files := alistSet fresh.files filename (hash content) }
        else fresh
      finalize (setVersionEntry d2 package_id target entry1) disk1
        package_id entry1 env.now2 false
    | none =>
      match env.fetch url with
      | .error _ => ⟨d2, disk1, false, true⟩
      | .ok content =>
        let disk2 := diskWrite disk1 target filename content
        let computed := hash content
        let entry1 := { fresh with files := alistSet fresh.files filename computed }
        finalize (setVersionEntry d2 package_id target entry1) disk2
          package_id entry1 env.now2 true

/-- `process_package` (lines 73–214).  `hash` is SHA-256 as an abstract
deterministic digest function.  `.error` models an uncaught Python
exception (see `preflight`). -/
def process_package (hash : String → String) (env : Env) (downloaded : Downloads)
    (disk : Disk) (package_id : String) (version_filter : Option String) :
    Except String PPResult :=
  match preflight env package_id version_filter with
  | .error e => .error e
  | .ok none => .ok ⟨downloaded, disk, false, false⟩
  | .ok (some target) =>
    .ok (downloadPhase hash env downloaded disk package_id target version_filter)

/-! ## State-access lemmas -/

/-- The recorded checksums of one version: the `files` mapping of its
Version Entry, if the entry exists. -/
def recordedFiles (d : Downloads) (pid v : String) : Option (List (String × String)) :=
  (getVersionEntry d pid v).map VersionEntry.files

theorem getVersionEntry_setVersionEntry_self (d : Downloads) (pid v : String)
    (e : VersionEntry) : getVersionEntry (setVersionEntry d pid v e) pid v = some e := by
  unfold setVersionEntry getVersionEntry
  cases h : alistGet d pid with
  | some ps => simp [alistGet_alistSet_self]
  | none => simp [alistGet_alistSet_self]

theorem getVersionEntry_setPkgTimestamp (d : Downloads) (pid ts pid' v : String) :
    getVersionEntry (setPkgTimestamp d pid ts) pid' v = getVersionEntry d pid' v := by
  unfold setPkgTimestamp getVersionEntry
  cases h : alistGet d pid with
  | none => rfl
  | some ps =>
    by_cases hp : pid' = pid
    · subst hp; simp [alistGet_alistSet_self, h]
    · simp [alistGet_alistSet_ne _ _ _ _ hp]

theorem mkdirVersion_files (k : Disk) (v : String) : (mkdirVersion k v).files = k.files := rfl

theorem mem_mkdirVersion (k : Disk) (v : String) : v ∈ (mkdirVersion k v).dirs := by
  unfold mkdirVersion
  by_cases h : v ∈ k.dirs <;> simp [h]

theorem mkdirVersion_of_mem (k : Disk) (v : String) (h : v ∈ k.dirs) :
    mkdirVersion k v = k := by
  unfold mkdirVersion
  simp [h]

theorem diskWrite_dirs (k : Disk) (v f c : String) : (diskWrite k v f c).dirs = k.dirs := rfl

theorem diskGet_diskWrite_self (k : Disk) (v f c : String) :
    diskGet (diskWrite k v f c) v f = some c := by
  unfold diskGet diskWrite
  exact alistGet_alistSet_self ..

theorem preflight_explicit_target (env : Env) (pid v t : String)
    (h : preflight env pid (some v) = .ok (some t)) : t = v := by
  unfold preflight at h
  repeat' split at h
  all_goals try simp_all
  all_goals (by_cases he : filterValidVersions env.versionDirs = [] <;> simp [he] at h)
  all_goals (split at h <;> try simp_all)
  all_goals (split at h <;> simp_all)

/-! ## Concrete scenario used by several checks -/

/-- A concrete stand-in for the SHA-256 digest function. -/
def sampleHash : String → String := fun s => s ++ "#sha"

/-- A sample repository environment: package directory present, one
version directory `1.0`, a general manifest with a single x64 installer. -/
def sampleEnv : Env where
  packageDirExists := true
  versionDirs := ["1.0"]
  manifestExists := fun _ => true
  installerManifestExists := fun _ => false
  installerManifestInstallers := fun _ => []
  manifestInstallers := fun _ =>
    [⟨some "x64", some "https://example.com/a.exe", some "ABCD"⟩]
  fetch := fun _ => .ok "CONTENT"
  headRev := "r1"
  now := "t1"
  now2 := "t2"

/-- The same environment with a failing blob fetcher. -/
def failEnv : Env := { sampleEnv with fetch := fun _ => .error "ConnectionError" }

/-- A state store in which `Foo.Bar` version `1.0` is already recorded,
with one file checksum, and pinned. -/
def pinnedState : Downloads :=
  [("Foo.Bar", ⟨[("1.0", ⟨"r0", [("a.exe", "h0")], "t0", true⟩)], some "t0"⟩)]

/-- A disk already holding the installer file of version `1.0`. -/
def sampleDisk : Disk := ⟨["1.0"], [(("1.0", "a.exe"), "CONTENT")]⟩

/-- An empty download tree. -/
def emptyDisk : Disk := ⟨[], []⟩

/-! ## C3: an unpinned re-download clears the pin -/

/-- **C3.**  The claim says a `download` call without an explicit version
on an already-pinned version leaves `pinned=true`.  The code contradicts
it: lines 134–139 rebuild the Version Entry with
`pinned = bool(version_filter)`, so the non-pinned call below, whose
latest-resolution lands on the already-pinned version `1.0`, ends with
`pinned=false`. -/
theorem nonpinned_redownload_clears_pin :
    (getVersionEntry pinnedState "Foo.Bar" "1.0").map VersionEntry.pinned = some true ∧
    (process_package sampleHash sampleEnv pinnedState sampleDisk "Foo.Bar" none).toOption.map
        (fun r => (getVersionEntry r.downloads "Foo.Bar" "1.0").map VersionEntry.pinned) =
      some (some false) := by
  constructor
  · rfl
  · rfl

/-! ## C1: failed fetch — skip, but the version entry is overwritten -/

/-- **C1** (amended).  When the destination file does not exist and the
blob fetch fails, the call returns a skip (`False`), writes nothing to
disk and records no file checksum — the target's `files` mapping is empty
afterwards — but the package state is *not* unchanged: lines 129–139 have
already overwritten the target's Version Entry with a fresh one (empty
files, new timestamp and revision, `pinned` recomputed from this call's
explicitness). -/
theorem fetch_failure_skip_overwrites_entry
    (hash : String → String) (env : Env) (d0 : Downloads) (k0 : Disk)
    (pid target : String) (vf : Option String) (inst : Installer) (msg : String)
    (hp : preflight env pid vf = .ok (some target))
    (hinst : chooseInstaller (installersOf env target) = some inst)
    (hnofile : diskGet (mkdirVersion k0 target) target
        (pathName (inst.installerUrl.getD "")) = none)
    (hfetch : env.fetch (inst.installerUrl.getD "") = .error msg) :
    process_package hash env d0 k0 pid vf =
      .ok ⟨setVersionEntry d0 pid target ⟨env.headRev, [], env.now, vf.isSome⟩,
           mkdirVersion k0 target, false, true⟩ ∧
    recordedFiles (setVersionEntry d0 pid target ⟨env.headRev, [], env.now, vf.isSome⟩)
        pid target = some [] ∧
    (mkdirVersion k0 target).files = k0.files := by
  refine ⟨?_, ?_, rfl⟩
  · unfold process_package
    rw [hp]
    simp only [downloadPhase, hinst, hnofile, hfetch]
  · simp [recordedFiles, getVersionEntry_setVersionEntry_self]

/-- Witness for `fetch_failure_skip_overwrites_entry` at the concrete
scenario. -/
theorem fetch_failure_skip_overwrites_entry_witness :
    process_package sampleHash failEnv pinnedState emptyDisk "Foo.Bar" none =
      .ok ⟨setVersionEntry pinnedState "Foo.Bar" "1.0" ⟨"r1", [], "t1", false⟩,
           mkdirVersion emptyDisk "1.0", false, true⟩ ∧
    recordedFiles (setVersionEntry pinnedState "Foo.Bar" "1.0" ⟨"r1", [], "t1", false⟩)
        "Foo.Bar" "1.0" = some [] ∧
    (mkdirVersion emptyDisk "1.0").files = emptyDisk.files :=
  fetch_failure_skip_overwrites_entry sampleHash failEnv pinnedState emptyDisk
    "Foo.Bar" "1.0" none ⟨some "x64", some "https://example.com/a.exe", some "ABCD"⟩
    "ConnectionError" rfl rfl rfl rfl

/-- **C1** counterexample to the claim as stated: in the same failed-fetch
situation (destination file absent, transport error), the package's state
is *not* the same after the call — the previously pinned entry with its
recorded file is replaced. -/
theorem fetch_failure_changes_state :
    ∃ r, process_package sampleHash failEnv pinnedState emptyDisk "Foo.Bar" none = .ok r ∧
      r.ok = false ∧ r.downloads ≠ pinnedState := by
  refine ⟨_, rfl, rfl, ?_⟩
  decide

/-! ## C2: idempotence of an explicit-version download -/

/-- **C2.**  If a `download` call with an explicit version succeeds, a
second call with the same explicit version against the resulting state
and disk, with the environment (upstream repository, fetcher, clock)
unchanged, is not an update — `downloaded_new` stays `False`, so the
"already up to date" path is taken — still returns success, and leaves
the recorded checksums of that version exactly as after the first call. -/
theorem download_idempotent
    (hash : String → String) (env : Env) (d0 : Downloads) (k0 : Disk)
    (pid v : String) (r1 r2 : PPResult)
    (h1 : process_package hash env d0 k0 pid (some v) = .ok r1)
    (hok : r1.ok = true)
    (h2 : process_package hash env r1.downloads r1.disk pid (some v) = .ok r2) :
    r2.downloadedNew = false ∧ r2.ok = true ∧
      recordedFiles r2.downloads pid v = recordedFiles r1.downloads pid v := by
  unfold process_package at h1 h2
  cases hp : preflight env pid (some v) with
  | error e =>
    rw [hp] at h1
    simp at h1
  | ok tgt =>
    rw [hp] at h1 h2
    cases tgt with
    | none =>
      simp only [Except.ok.injEq] at h1
      rw [← h1] at hok
      simp at hok
    | some t =>
      have ht := preflight_explicit_target env pid v t hp
      subst t
      simp only [Except.ok.injEq] at h1 h2
      simp only [downloadPhase] at h1
      cases hc : chooseInstaller (installersOf env v) with
      | none =>
        simp only [hc] at h1
        rw [← h1] at hok
        simp at hok
      | some inst =>
        simp only [hc] at h1
        cases hd : diskGet (mkdirVersion k0 v) v (pathName (inst.installerUrl.getD "")) with
        | some content =>
          simp only [hd] at h1
          simp [alistGet, alistSet, finalize] at h1
          subst h1
          simp only [downloadPhase] at h2
          rw [mkdirVersion_of_mem _ _ (mem_mkdirVersion k0 v)] at h2
          simp only [hc, hd] at h2
          simp [alistGet, alistSet, finalize] at h2
          subst h2
          refine ⟨rfl, rfl, ?_⟩
          simp [recordedFiles, getVersionEntry_setPkgTimestamp,
            getVersionEntry_setVersionEntry_self]
        | none =>
          simp only [hd] at h1
          cases hf : env.fetch (inst.installerUrl.getD "") with
          | error msg =>
            simp only [hf] at h1
            rw [← h1] at hok
            simp at hok
          | ok content =>
            simp only [hf] at h1
            simp [alistGet, alistSet, finalize] at h1
            subst h1
            simp only [downloadPhase] at h2
            have hdirs : v ∈ (diskWrite (mkdirVersion k0 v) v
                (pathName (inst.installerUrl.getD "")) content).dirs := by
              rw [diskWrite_dirs]
              exact mem_mkdirVersion k0 v
            rw [mkdirVersion_of_mem _ _ hdirs] at h2
            simp only [hc, diskGet_diskWrite_self] at h2
            simp [alistGet, alistSet, finalize] at h2
            subst h2
            refine ⟨rfl, rfl, ?_⟩
            simp [recordedFiles, getVersionEntry_setPkgTimestamp,
              getVersionEntry_setVersionEntry_self]

/-- Witness for `download_idempotent`: the concrete scenario, explicit
version `1.0`, run twice from an empty state and disk. -/
theorem download_idempotent_witness :
    ∃ r1 r2 : PPResult,
      process_package sampleHash sampleEnv [] emptyDisk "Foo.Bar" (some "1.0") = .ok r1 ∧
      r1.ok = true ∧
      process_package sampleHash sampleEnv r1.downloads r1.disk "Foo.Bar" (some "1.0") = .ok r2 ∧
      r2.downloadedNew = false ∧ r2.ok = true ∧
      recordedFiles r2.downloads "Foo.Bar" "1.0" = recordedFiles r1.downloads "Foo.Bar" "1.0" := by
  refine ⟨_, _, rfl, rfl, rfl, ?_⟩
  exact download_idempotent sampleHash sampleEnv [] emptyDisk "Foo.Bar" "1.0" _ _ rfl rfl rfl

/-! ## Retention planning (`cleanup`, tasks.py lines 466–511) -/

/-- Stable insertion into an ascending list: after every strictly smaller
element, before equal ones. -/
def insertAsc {α : Type} (lt : α → α → Bool) (x : α) : List α → List α
  | [] => [x]
  | y :: ys => if lt y x then y :: insertAsc lt x ys else x :: y :: ys

/-- Stable ascending sort.  For a total preorder the output of a stable
sort is unique, so this models Python's stable `list.sort`. -/
def stableSort {α : Type} (lt : α → α → Bool) : List α → List α
  | [] => []
  | x :: xs => insertAsc lt x (stableSort lt xs)

theorem mem_insertAsc {α : Type} (lt : α → α → Bool) (x a : α) (l : List α) :
    a ∈ insertAsc lt x l ↔ a = x ∨ a ∈ l := by
  induction l with
  | nil => simp [insertAsc]
  | cons y ys ih =>
    by_cases h : lt y x
    · simp [insertAsc, h, ih]
      tauto
    · simp [insertAsc, h]

theorem mem_stableSort {α : Type} (lt : α → α → Bool) (a : α) (l : List α) :
    a ∈ stableSort lt l ↔ a ∈ l := by
  induction l with
  | nil => simp [stableSort]
  | cons x xs ih => simp [stableSort, mem_insertAsc, ih]

/-- Key computation for the sort, in list order: Python evaluates
`parse_version_safe(item[0])` for each item before sorting, and the first
raise aborts the task. -/
def decorate : List (String × VersionEntry) →
    Except String (List (List Nat × (String × VersionEntry)))
  | [] => .ok []
  | p :: ps =>
    match parse_version_safe p.1 with
    | .error e => .error e
    | .ok k =>
      match decorate ps with
      | .error e => .error e
      | .ok rest => .ok ((k, p) :: rest)

theorem mem_decorate (l : List (String × VersionEntry))
    (dec : List (List Nat × (String × VersionEntry))) (h : decorate l = .ok dec) :
    ∀ q ∈ dec, q.2 ∈ l := by
  induction l generalizing dec with
  | nil =>
    simp [decorate] at h
    subst h
    simp
  | cons p ps ih =>
    unfold decorate at h
    cases hk : parse_version_safe p.1 with
    | error e => rw [hk] at h; simp at h
    | ok k =>
      rw [hk] at h
      cases hr : decorate ps with
      | error e => rw [hr] at h; simp at h
      | ok rest =>
        rw [hr] at h
        simp only [Except.ok.injEq] at h
        subst h
        intro q hq
        rcases List.mem_cons.mp hq with h1 | h1
        · subst h1; simp
        · exact List.mem_cons_of_mem _ (ih rest hr q h1)

/-- Modelled from `datetime.fromisoformat` (standard library), restricted
to the year and month fields that the age rule reads: accepts strings
beginning `YYYY-MM` with four then two digits — the shape
`datetime.now().isoformat()` produces; anything else is modelled as the
parse error (an uncaught `ValueError` in the task). -/
def parseIsoYearMonth (s : String) : Except String (Int × Int) :=
  match s.data with
  | y1 :: y2 :: y3 :: y4 :: '-' :: m1 :: m2 :: _ =>
    if ([y1, y2, y3, y4].all Char.isDigit && [m1, m2].all Char.isDigit) then
      .ok ((digitsToNat [y1, y2, y3, y4] : Int), (digitsToNat [m1, m2] : Int))
    else .error "ValueError"
  | _ => .error "ValueError"

/-- The age rule (tasks.py lines 493–497): walk the sorted unpinned list,
adding each version whose month-granularity age exceeds the limit and
which is not already selected. -/
def ageLoop (nowY nowM maxAge : Int) :
    List (String × VersionEntry) → List (String × VersionEntry) →
    Except String (List (String × VersionEntry))
  | [], acc => .ok acc
  | p :: ps, acc =>
    match parseIsoYearMonth p.2.timestamp with
    | .error e => .error e
    | .ok ym =>
      let ageMonths := (nowY - ym.1) * 12 + (nowM - ym.2)
      if ageMonths > maxAge ∧ p ∉ acc then ageLoop nowY nowM maxAge ps (acc ++ [p])
      else ageLoop nowY nowM maxAge ps acc

theorem mem_ageLoop (nowY nowM maxAge : Int) (ps acc l : List (String × VersionEntry))
    (h : ageLoop nowY nowM maxAge ps acc = .ok l) :
    ∀ p ∈ l, p ∈ acc ∨ p ∈ ps := by
  induction ps generalizing acc with
  | nil =>
    simp [ageLoop] at h
    subst h
    intro p hp
    exact Or.inl hp
  | cons q qs ih =>
    unfold ageLoop at h
    cases hy : parseIsoYearMonth q.2.timestamp with
    | error e => rw [hy] at h; simp at h
    | ok ym =>
      rw [hy] at h
      simp only at h
      split at h
      · intro p hp
        rcases ih (acc ++ [q]) h p hp with h1 | h1
        · rcases List.mem_append.mp h1 with h2 | h2
          · exact Or.inl h2
          · simp at h2; subst h2; simp
        · simp [h1]
      · intro p hp
        rcases ih acc h p hp with h1 | h1
        · exact Or.inl h1
        · simp [h1]

/-- The per-package selection logic of the `cleanup` task (tasks.py lines
481–497): filter unpinned versions, sort them ascending by
`parse_version_safe`, mark everything below the count cap
(`unpinned[:-max_versions]`, which is empty when `max_versions` is 0),
then union in the versions over the age limit.  `.error` models the task
crashing on an uncaught exception (a version label on which
`parse_version_safe` raises, or a timestamp `fromisoformat` rejects); a
crash deletes nothing. -/
def cleanupPlan (versions : List (String × VersionEntry)) (nowY nowM : Int)
    (maxVersions : Nat) (maxAgeMonths : Int) :
    Except String (List (String × VersionEntry)) :=
  let unpinned := versions.filter (fun p => !p.2.pinned)
  if unpinned.isEmpty then .ok []
  else
    match decorate unpinned with
    | .error e => .error e
    | .ok decorated =>
      let sorted := (stableSort (fun a b => keyLt a.1 b.1) decorated).map Prod.snd
      let toDelete0 :=
        if sorted.length > maxVersions then
          if maxVersions = 0 then [] else sorted.take (sorted.length - maxVersions)
        else []
      ageLoop nowY nowM maxAgeMonths sorted toDelete0

/-- An unpinned Version Entry with the given timestamp. -/
def unpEntry (ts : String) : VersionEntry := ⟨"r0", [], ts, false⟩

/-! ## C5: retention — count rule and pin exemption -/

/-- **C5.**  For the state holding exactly the unpinned versions
`1.0,1.1,1.2,1.3` (fresh timestamps, below the age limit) with
`max_count=2`, cleanup selects exactly `1.0` and `1.1`; and for every
package state whatsoever, every version the plan selects is unpinned —
a pinned version is never selected, whatever its age or the count cap. -/
theorem cleanup_retention :
    (cleanupPlan
        [("1.0", unpEntry "2026-10-01T00:00:00"), ("1.1", unpEntry "2026-10-01T00:00:00"),
         ("1.2", unpEntry "2026-10-01T00:00:00"), ("1.3", unpEntry "2026-10-01T00:00:00")]
        2026 10 2 6).map (List.map Prod.fst) = .ok ["1.0", "1.1"] ∧
    ∀ (versions : List (String × VersionEntry)) (nowY nowM : Int) (maxV : Nat)
      (maxAge : Int) (l : List (String × VersionEntry)),
      cleanupPlan versions nowY nowM maxV maxAge = .ok l →
      ∀ p ∈ l, p.2.pinned = false := by
  constructor
  · rfl
  · intro versions nowY nowM maxV maxAge l hplan p hp
    simp only [cleanupPlan] at hplan
    by_cases he : (versions.filter (fun p => !p.2.pinned)).isEmpty = true
    · rw [if_pos he] at hplan
      simp only [Except.ok.injEq] at hplan
      subst hplan
      simp at hp
    · rw [if_neg he] at hplan
      cases hdec : decorate (versions.filter (fun p => !p.2.pinned)) with
      | error e => rw [hdec] at hplan; simp at hplan
      | ok decorated =>
        rw [hdec] at hplan
        have hmem : p ∈ (stableSort (fun a b => keyLt a.1 b.1) decorated).map Prod.snd := by
          rcases mem_ageLoop _ _ _ _ _ _ hplan p hp with h1 | h1
          · split at h1
            · split at h1
              · simp at h1
              · exact List.mem_of_mem_take h1
            · simp at h1
          · exact h1
        rcases List.mem_map.mp hmem with ⟨q, hq, hq2⟩
        have hq3 : q.2 ∈ versions.filter (fun p => !p.2.pinned) :=
          mem_decorate _ _ hdec q ((mem_stableSort _ _ _).mp hq)
        have := (List.mem_filter.mp hq3).2
        rw [hq2] at this
        simpa using this

/-- Witness for the universal half of `cleanup_retention`: instantiated
at the concrete four-version state. -/
theorem cleanup_retention_witness :
    ("1.0", unpEntry "2026-10-01T00:00:00").2.pinned = false :=
  cleanup_retention.2
    [("1.0", unpEntry "2026-10-01T00:00:00"), ("1.1", unpEntry "2026-10-01T00:00:00"),
     ("1.2", unpEntry "2026-10-01T00:00:00"), ("1.3", unpEntry "2026-10-01T00:00:00")]
    2026 10 2 6
    [("1.0", unpEntry "2026-10-01T00:00:00"), ("1.1", unpEntry "2026-10-01T00:00:00")]
    rfl ("1.0", unpEntry "2026-10-01T00:00:00") (by decide)

/-! ## C6: totality of the version key, and concrete resolution -/

/-- **C6.**  The claim asserts `parse_version_safe` is total over all
input strings, and that resolving the maximum of
`{1.2.3, 1.10.0, 1.2.40.592}` gives `1.10.0`.  The resolution half holds,
but totality fails: on `"-1"` the strict parse raises `InvalidVersion`,
the fallback collects the integer part `-1` and rebuilds the string
`-1.0.0`, and `Version("-1.0.0")` raises `InvalidVersion` outside any
handler — the exception escapes `parse_version_safe`.  The docstring and
the fallback exist precisely to make the function total, so this is a
defect of the code at input `"-1"` rather than an intended behavior. -/
theorem parse_version_safe_not_total :
    parse_version_safe "-1" = .error "InvalidVersion" ∧
    getLatestVersionCore ["1.2.3", "1.10.0", "1.2.40.592"] = some "1.10.0" :=
  ⟨rfl, rfl⟩

/-! ## C9: the defensive filter and the empty label -/

/-- **C9** counterexample: the defensive filter does *not* discard the
empty-string label.  `parse_version_safe ""` does not raise — the
fallback produces the key `0.0.0` — so `""` survives the filter, and is
even selected as the target when it is the only candidate. -/
theorem empty_version_not_filtered :
    filterValidVersions [""] = [""] ∧ getLatestVersionCore [""] = some "" :=
  ⟨rfl, rfl⟩

/-- **C9** (amended).  The defensive filter discards exactly the labels
on which `parse_version_safe` raises — such as `"-1"`, never kept in any
candidate list — while an empty label parses to the fallback key `0.0.0`
and is always retained. -/
theorem filter_rejects_only_raising_labels (vs : List String) :
    (parse_version_safe "").isOk = true ∧
    ("" ∈ vs → "" ∈ filterValidVersions vs) ∧
    "-1" ∉ filterValidVersions vs := by
  refine ⟨rfl, fun h => ?_, fun h => ?_⟩
  · exact List.mem_filter.mpr ⟨h, by decide⟩
  · have := (List.mem_filter.mp h).2
    exact absurd this (by decide)

/-- Witness for `filter_rejects_only_raising_labels` at a concrete
candidate list. -/
theorem filter_rejects_only_raising_labels_witness :
    "" ∈ filterValidVersions ["", "-1", "1.0"] ∧
    "-1" ∉ filterValidVersions ["", "-1", "1.0"] :=
  ⟨(filter_rejects_only_raising_labels ["", "-1", "1.0"]).2.1 (by decide),
   (filter_rejects_only_raising_labels ["", "-1", "1.0"]).2.2⟩

/-! ## Hash verification (`WingetPackage.validate_hashes`, lines 447–507) -/

/-- One file's classification in the verification report. -/
structure FileReport where
  status : String
  expected : String
  computed : String
  deriving DecidableEq, Repr

/-- One version's verification report. -/
structure VersionReport where
  valid : Bool
  files : List (String × FileReport)
  missing_files : List String
  unexpected_files : List String
  deriving DecidableEq, Repr

/-- The whole package's verification report. -/
structure PackageReport where
  valid : Bool
  error : Option String
  versions : List (String × VersionReport)
  deriving DecidableEq, Repr

/-- The body of the per-version loop of `validate_hashes` (lines 455–503).
A version recording zero files short-circuits at line 464 with the
pristine report — the download directory is not examined.  Otherwise a
missing directory invalidates the version; else each recorded filename is
classified `MATCH`/`MISMATCH` against the freshly computed hash of the
on-disk content, absent files are listed as missing, and on-disk files
that are not recorded are listed as unexpected (which does not affect
`valid`). -/
def versionReportOf (hash : String → String) (disk : Disk) (version : String)
    (vdata : VersionEntry) : VersionReport :=
  if vdata.files.isEmpty then ⟨true, [], [], []⟩
  else if version ∉ disk.dirs then ⟨false, [], [], []⟩
  else
    let actual := (disk.files.filter (fun p => p.1.1 = version)).map (fun p => (p.1.2, p.2))
    let folded := vdata.files.foldl
      (fun (acc : Bool × List (String × FileReport) × List String) fp =>
        match alistGet actual fp.1 with
        | none => (false, acc.2.1, acc.2.2 ++ [fp.1])
        | some content =>
          let computed := hash content
          let ok := computed == fp.2
          (acc.1 && ok,
           alistSet acc.2.1 fp.1 ⟨if ok then "MATCH" else "MISMATCH", fp.2, computed⟩,
           acc.2.2))
      (true, [], [])
    let expectedNames := vdata.files.map Prod.fst
    let unexpected := (actual.map Prod.fst).filter (fun n => n ∉ expectedNames)
    ⟨folded.1, folded.2.1, folded.2.2, unexpected⟩

/-- The fold collecting per-version reports into the `versions` dict and
conjoining their `valid` flags. -/
def foldVR (hash : String → String) (disk : Disk)
    (vs : List (String × VersionEntry)) (acc : Bool × List (String × VersionReport)) :
    Bool × List (String × VersionReport) :=
  vs.foldl
    (fun acc p =>
      let vr := versionReportOf hash disk p.1 p.2
      (acc.1 && vr.valid, alistSet acc.2 p.1 vr))
    acc

/-- `WingetPackage.validate_hashes` (lines 447–507).  A package id absent
from `state['downloads']` (Python `if not package_info`) yields the
error report immediately. -/
def validate_hashes (hash : String → String) (downloads : Downloads) (disk : Disk)
    (package_id : String) : PackageReport :=
  match alistGet downloads package_id with
  | none => ⟨false, some "Package not in state", []⟩
  | some ps =>
    let folded := foldVR hash disk ps.versions (true, [])
    ⟨folded.1, none, folded.2⟩

theorem foldVR_cons (hash : String → String) (disk : Disk) (p : String × VersionEntry)
    (rest : List (String × VersionEntry)) (acc : Bool × List (String × VersionReport)) :
    foldVR hash disk (p :: rest) acc =
      foldVR hash disk rest
        (acc.1 && (versionReportOf hash disk p.1 p.2).valid,
         alistSet acc.2 p.1 (versionReportOf hash disk p.1 p.2)) := rfl

theorem foldVR_lookup_notmem (hash : String → String) (disk : Disk)
    (vs : List (String × VersionEntry)) (acc : Bool × List (String × VersionReport))
    (tgt : String) (h : tgt ∉ vs.map Prod.fst) :
    alistGet (foldVR hash disk vs acc).2 tgt = alistGet acc.2 tgt := by
  induction vs generalizing acc with
  | nil => rfl
  | cons p rest ih =>
    simp only [List.map_cons, List.mem_cons] at h
    push_neg at h
    rw [foldVR_cons, ih _ h.2]
    exact alistGet_alistSet_ne _ _ _ _ h.1

theorem foldVR_lookup (hash : String → String) (disk : Disk)
    (vs : List (String × VersionEntry)) (acc : Bool × List (String × VersionReport))
    (tgt : String) (e : VersionEntry) (hnd : (vs.map Prod.fst).Nodup)
    (hget : alistGet vs tgt = some e) :
    alistGet (foldVR hash disk vs acc).2 tgt =
      some (versionReportOf hash disk tgt e) := by
  induction vs generalizing acc with
  | nil => simp [alistGet] at hget
  | cons p rest ih =>
    simp only [List.map_cons, List.nodup_cons] at hnd
    by_cases hp : p.1 = tgt
    · have he : p.2 = e := by
        unfold alistGet at hget
        rw [if_pos hp] at hget
        exact Option.some.inj hget
      subst he
      subst hp
      rw [foldVR_cons, foldVR_lookup_notmem _ _ _ _ _ hnd.1]
      exact alistGet_alistSet_self ..
    · have hget' : alistGet rest tgt = some e := by
        unfold alistGet at hget
        rwa [if_neg hp] at hget
      rw [foldVR_cons]
      exact ih _ hnd.2 hget'

/-! ## C10: a never-downloaded package fails verification -/

/-- **C10.**  For every package identity absent from the downloads
mapping, `validate_hashes` returns `valid=false` with an explicit error
— not a benign empty report. -/
theorem validate_missing_package (hash : String → String) (downloads : Downloads)
    (disk : Disk) (pid : String) (h : alistGet downloads pid = none) :
    validate_hashes hash downloads disk pid =
      ⟨false, some "Package not in state", []⟩ := by
  unfold validate_hashes
  rw [h]

/-- Witness for `validate_missing_package` at the empty state store. -/
theorem validate_missing_package_witness :
    validate_hashes sampleHash [] emptyDisk "Foo.Bar" =
      ⟨false, some "Package not in state", []⟩ :=
  validate_missing_package sampleHash [] emptyDisk "Foo.Bar" rfl

/-! ## C8: versions with zero recorded files -/

/-- A state in which `Foo.Bar` version `1.0` records zero files. -/
def zeroFilesState : Downloads :=
  [("Foo.Bar", ⟨[("1.0", ⟨"r0", [], "t0", false⟩)], some "t0"⟩)]

/-- **C8** counterexample: version `1.0` records zero files while its
download directory exists and is non-empty (`a.exe` is on disk), yet
`validate_hashes` reports no unexpected files at all — and a valid
package — instead of flagging the directory's contents, because the
zero-files case short-circuits before the directory is read. -/
theorem zero_files_unexpected_not_reported :
    (alistGet zeroFilesState "Foo.Bar").isSome = true ∧
    "1.0" ∈ sampleDisk.dirs ∧ sampleDisk.files ≠ [] ∧
    (alistGet (validate_hashes sampleHash zeroFilesState sampleDisk "Foo.Bar").versions
        "1.0").map VersionReport.unexpected_files = some [] ∧
    (validate_hashes sampleHash zeroFilesState sampleDisk "Foo.Bar").valid = true := by
  refine ⟨rfl, by decide, by decide, rfl, rfl⟩

/-- **C8** (amended).  A version whose state entry records zero files is
skipped by verification: its report is the pristine empty one (valid, no
unexpected files), whatever the download directory contains — the
directory is never examined. -/
theorem zero_files_version_reported_empty (hash : String → String) (disk : Disk)
    (version : String) (vdata : VersionEntry) (h : vdata.files = []) :
    versionReportOf hash disk version vdata = ⟨true, [], [], []⟩ := by
  unfold versionReportOf
  simp [h]

/-- Witness for `zero_files_version_reported_empty`: a zero-files entry
against a disk whose `1.0` directory is non-empty. -/
theorem zero_files_version_reported_empty_witness :
    versionReportOf sampleHash sampleDisk "1.0" ⟨"r0", [], "t0", false⟩ =
      ⟨true, [], [], []⟩ :=
  zero_files_version_reported_empty sampleHash sampleDisk "1.0" _ rfl

/-! ## C4: checksum mismatch — recorded anyway, and verified as MATCH -/

/-- Python `str.lower()` (ASCII model), as applied to the declared
checksum at line 200. -/
def pyLower (s : String) : String := String.mk (s.data.map Char.toLower)

theorem actual_lookup_diskWrite (L : List ((String × String) × String)) (t f c : String) :
    alistGet (((alistSet L (t, f) c).filter (fun p => p.1.1 = t)).map
      (fun p => (p.1.2, p.2))) f = some c := by
  induction L with
  | nil => simp [alistSet, alistGet]
  | cons q rest ih =>
    by_cases hq : q.1 = (t, f)
    · simp [alistSet, hq, alistGet]
    · have hstep : alistSet (q :: rest) (t, f) c = q :: alistSet rest (t, f) c := by
        simp [alistSet, hq]
      rw [hstep]
      by_cases ht : q.1.1 = t
      · have hf : q.1.2 ≠ f := by
          intro hf
          exact hq (by rw [Prod.ext_iff]; exact ⟨ht, hf⟩)
        simp [List.filter_cons, ht, alistGet, hf, ih]
      · simp [List.filter_cons, ht, ih]

/-- Verification of a version entry holding exactly one file whose
recorded hash is the digest of the content just written to disk: the file
is classified `MATCH` and the version is valid. -/
theorem versionReportOf_single_fetched (hash : String → String) (k0 : Disk)
    (target fn content rev ts : String) (pin : Bool) :
    (versionReportOf hash (diskWrite (mkdirVersion k0 target) target fn content)
        target ⟨rev, [(fn, hash content)], ts, pin⟩).valid = true ∧
    alistGet (versionReportOf hash (diskWrite (mkdirVersion k0 target) target fn content)
        target ⟨rev, [(fn, hash content)], ts, pin⟩).files fn =
      some ⟨"MATCH", hash content, hash content⟩ := by
  have hdir : target ∈ (diskWrite (mkdirVersion k0 target) target fn content).dirs := by
    rw [diskWrite_dirs]
    exact mem_mkdirVersion k0 target
  have hact : (diskWrite (mkdirVersion k0 target) target fn content).files =
      alistSet k0.files (target, fn) content := rfl
  unfold versionReportOf
  simp [hdir, hact, actual_lookup_diskWrite, alistGet, alistSet]

/-- **C4** (amended).  A freshly fetched file whose computed hash differs
from the manifest's declared `InstallerSha256` is still recorded in state
with the computed hash as authoritative — the mismatch is a printed
warning only, and the call succeeds.  A subsequent `validate_hashes` then
reports that file as `MATCH` and the version as valid, because
verification compares the on-disk hash against the *recorded computed*
hash, not against the manifest's declared one; `MISMATCH` arises only if
the on-disk content changes later. -/
theorem mismatched_fetch_recorded_then_verifies_match
    (hash : String → String) (env : Env) (d0 : Downloads) (k0 : Disk)
    (pid target : String) (vf : Option String) (inst : Installer)
    (declared content : String) (r : PPResult)
    (hp : preflight env pid vf = .ok (some target))
    (hinst : chooseInstaller (installersOf env target) = some inst)
    (hnofile : diskGet (mkdirVersion k0 target) target
        (pathName (inst.installerUrl.getD "")) = none)
    (hfetch : env.fetch (inst.installerUrl.getD "") = .ok content)
    (_hsha : inst.installerSha256 = some declared)
    (_hmismatch : hash content ≠ pyLower declared)
    (hr : process_package hash env d0 k0 pid vf = .ok r)
    (hnd : ∀ ps, alistGet r.downloads pid = some ps → (ps.versions.map Prod.fst).Nodup) :
    r.ok = true ∧
    recordedFiles r.downloads pid target =
      some [(pathName (inst.installerUrl.getD ""), hash content)] ∧
    ∃ vr : VersionReport,
      alistGet (validate_hashes hash r.downloads r.disk pid).versions target = some vr ∧
      vr.valid = true ∧
      alistGet vr.files (pathName (inst.installerUrl.getD "")) =
        some ⟨"MATCH", hash content, hash content⟩ := by
  have hr' : process_package hash env d0 k0 pid vf =
      .ok ⟨setPkgTimestamp (setVersionEntry (setVersionEntry d0 pid target
              ⟨env.headRev, [], env.now, vf.isSome⟩) pid target
              ⟨env.headRev, [(pathName (inst.installerUrl.getD ""), hash content)],
               env.now, vf.isSome⟩) pid env.now2,
           diskWrite (mkdirVersion k0 target) target
             (pathName (inst.installerUrl.getD "")) content,
           true, true⟩ := by
    unfold process_package
    rw [hp]
    simp only [downloadPhase, hinst, hnofile, hfetch]
    rfl
  rw [hr'] at hr
  injection hr with hr
  subst hr
  refine ⟨rfl, ?_, ?_⟩
  · simp [recordedFiles, getVersionEntry_setPkgTimestamp,
      getVersionEntry_setVersionEntry_self]
  · have hgv : getVersionEntry
        (setPkgTimestamp (setVersionEntry (setVersionEntry d0 pid target
            ⟨env.headRev, [], env.now, vf.isSome⟩) pid target
            ⟨env.headRev, [(pathName (inst.installerUrl.getD ""), hash content)],
             env.now, vf.isSome⟩) pid env.now2) pid target =
        some ⟨env.headRev, [(pathName (inst.installerUrl.getD ""), hash content)],
              env.now, vf.isSome⟩ := by
      rw [getVersionEntry_setPkgTimestamp]
      exact getVersionEntry_setVersionEntry_self ..
    cases hps : alistGet (setPkgTimestamp (setVersionEntry (setVersionEntry d0 pid target
        ⟨env.headRev, [], env.now, vf.isSome⟩) pid target
        ⟨env.headRev, [(pathName (inst.installerUrl.getD ""), hash content)],
         env.now, vf.isSome⟩) pid env.now2) pid with
    | none =>
      unfold getVersionEntry at hgv
      rw [hps] at hgv
      simp at hgv
    | some psT =>
      have hvt : alistGet psT.versions target =
          some ⟨env.headRev, [(pathName (inst.installerUrl.getD ""), hash content)],
                env.now, vf.isSome⟩ := by
        unfold getVersionEntry at hgv
        rw [hps] at hgv
        simpa using hgv
      have hnd' := hnd psT hps
      refine ⟨_, ?_, (versionReportOf_single_fetched hash k0 target _ content
        env.headRev env.now vf.isSome).1, (versionReportOf_single_fetched hash k0 target _
        content env.headRev env.now vf.isSome).2⟩
      unfold validate_hashes
      rw [hps]
      exact foldVR_lookup hash _ psT.versions (true, []) target _ hnd' hvt

/-- The state and disk after the sample fetch: `sampleEnv` declares the
checksum `ABCD`, but the computed digest of the fetched content is
`CONTENT#sha` — a mismatch, recorded anyway. -/
def fetchedResult : PPResult :=
  ⟨[("Foo.Bar", ⟨[("1.0", ⟨"r1", [("a.exe", "CONTENT#sha")], "t1", false⟩)], some "t2"⟩)],
   ⟨["1.0"], [(("1.0", "a.exe"), "CONTENT")]⟩, true, true⟩

/-- Witness for `mismatched_fetch_recorded_then_verifies_match` at the
concrete scenario (`sampleEnv`, declared `ABCD`, computed `CONTENT#sha`). -/
theorem mismatched_fetch_recorded_then_verifies_match_witness :
    fetchedResult.ok = true ∧
    recordedFiles fetchedResult.downloads "Foo.Bar" "1.0" =
      some [("a.exe", "CONTENT#sha")] ∧
    ∃ vr : VersionReport,
      alistGet (validate_hashes sampleHash fetchedResult.downloads fetchedResult.disk
          "Foo.Bar").versions "1.0" = some vr ∧
      vr.valid = true ∧
      alistGet vr.files "a.exe" = some ⟨"MATCH", "CONTENT#sha", "CONTENT#sha"⟩ :=
  mismatched_fetch_recorded_then_verifies_match sampleHash sampleEnv [] emptyDisk
    "Foo.Bar" "1.0" none ⟨some "x64", some "https://example.com/a.exe", some "ABCD"⟩
    "ABCD" "CONTENT" fetchedResult rfl rfl rfl rfl rfl (by decide) rfl
    (by intro ps hps; cases hps; decide)

/-- **C4** counterexample to the claim as stated: in the mismatch
scenario (declared `ABCD`, computed `CONTENT#sha`), the subsequent
`verify` reports the file as `MATCH` with `valid=true` for the package —
not `MISMATCH` with `valid=false` as the claim asserts. -/
theorem mismatch_scenario_not_reported_mismatch :
    ∃ r, process_package sampleHash sampleEnv [] emptyDisk "Foo.Bar" none = .ok r ∧
      r.ok = true ∧
      sampleHash "CONTENT" ≠ pyLower "ABCD" ∧
      validate_hashes sampleHash r.downloads r.disk "Foo.Bar" =
        ⟨true, none,
         [("1.0", ⟨true, [("a.exe", ⟨"MATCH", "CONTENT#sha", "CONTENT#sha"⟩)], [], []⟩)]⟩ ∧
      (validate_hashes sampleHash r.downloads r.disk "Foo.Bar").valid ≠ false := by
  refine ⟨_, rfl, rfl, by decide, rfl, by decide⟩

/-! ## Manifest patching (`WingetMirrorManager.patch_repo`, lines 350–410) -/

/-- One installer record of a manifest as the patcher sees it: the
`InstallerUrl` field when present, plus all other fields, untouched. -/
structure PatchInstaller where
  installerUrl : Option String
  otherFields : List (String × String)
  deriving DecidableEq, Repr

/-- The parsed value of one manifest file: its `ManifestType`, its
`Installers` list when the key is present, and the remaining fields,
which the patcher never touches. -/
structure ManifestVal where
  manifestType : Option String
  installers : Option (List PatchInstaller)
  otherFields : List (String × String)
  deriving DecidableEq, Repr

/-- Modelled from the external `yaml` library: a document on disk is its
`safe_load` value plus the formatting information (comments, quoting,
line layout) that `safe_load` discards and `dump` never re-emits. -/
structure YamlText where
  val : ManifestVal
  format : List String
  deriving DecidableEq, Repr

/-- `yaml.safe_load` (line 392). -/
def safeLoad (t : YamlText) : ManifestVal := t.val

/-- `yaml.dump(manifest, default_flow_style=False, sort_keys=False)`
(line 404): canonical serialization of the value — key order preserved,
source formatting and comments not reproduced. -/
def yamlDump (v : ManifestVal) : YamlText := ⟨v, []⟩

/-- Python `server_url.rstrip('/')` (line 399). -/
def rstripSlash (s : String) : String :=
  String.mk (s.data.reverse.dropWhile (fun c => c = '/')).reverse

/-- The rewritten URL (lines 398–399):
`{server_url.rstrip('/')}/downloads/{pub}/{pkg}/{version}/{filename}`,
the filename being `Path(original_url).name`. -/
def patchedUrl (serverUrl pub pkg version origUrl : String) : String :=
  rstripSlash serverUrl ++ "/downloads/" ++ pub ++ "/" ++ pkg ++ "/" ++ version ++ "/" ++
    pathName origUrl

/-- Lines 394–401: in a manifest whose `ManifestType` is `installer` and
which has an `Installers` key, rewrite every entry carrying an
`InstallerUrl`; any other manifest is left as loaded. -/
def patchManifestVal (serverUrl pub pkg version : String) (m : ManifestVal) : ManifestVal :=
  if m.manifestType = some "installer" ∧ m.installers.isSome then
    { m with installers := m.installers.map (fun l => l.map (fun i =>
        match i.installerUrl with
        | some u => { i with installerUrl := some (patchedUrl serverUrl pub pkg version u) }
        | none => i)) }
  else m

/-- The per-file patch step (lines 391–404): load, rewrite, dump into the
target directory. -/
def patchFile (serverUrl pub pkg version : String) (t : YamlText) : YamlText :=
  yamlDump (patchManifestVal serverUrl pub pkg version (safeLoad t))

/-! ## C7: URL rewriting, and what "copied unchanged" means -/

/-- A non-installer manifest file whose source text carries a comment. -/
def commentedManifest : YamlText :=
  ⟨⟨some "defaultLocale", none, [("PackageName", "Bar")]⟩, ["# upstream comment"]⟩

/-- **C7** counterexample to the byte-for-byte half of the claim: a
non-installer manifest containing a comment is not copied byte-for-byte.
The patcher runs every manifest through `safe_load` and `dump`, which
drops the comment, so the copied file's text differs from the source even
though its parsed content is unchanged. -/
theorem noninstaller_manifest_not_byte_identical :
    (patchFile "https://mirror.local" "Foo" "Bar" "1.2.3" commentedManifest).val =
      commentedManifest.val ∧
    patchFile "https://mirror.local" "Foo" "Bar" "1.2.3" commentedManifest ≠
      commentedManifest := by
  constructor
  · rfl
  · decide

/-- **C7** (amended).  The section-8 example rewrites to
`https://mirror.local/downloads/Foo/Bar/1.2.3/Bar-1.2.3.exe`; in every
installer-type manifest each installer entry with an `InstallerUrl` is
rewritten to
`{server_base_url, trailing slashes stripped}/downloads/{publisher}/{package}/{version}/{filename-from-original-url}`;
and every non-installer manifest keeps its parsed content unchanged —
it is re-serialized on copy, not byte-for-byte identical. -/
theorem patch_rewrites_installer_urls
    (serverUrl pub pkg version : String) (t : YamlText) :
    patchedUrl "https://mirror.local" "Foo" "Bar" "1.2.3"
        "https://example.com/foo/Bar-1.2.3.exe" =
      "https://mirror.local/downloads/Foo/Bar/1.2.3/Bar-1.2.3.exe" ∧
    ((safeLoad t).manifestType = some "installer" →
      ∀ l, (safeLoad t).installers = some l →
        ∀ i ∈ l, ∀ u, i.installerUrl = some u →
          ({ i with installerUrl := some (patchedUrl serverUrl pub pkg version u) }
              : PatchInstaller) ∈
            ((patchFile serverUrl pub pkg version t).val.installers.getD [])) ∧
    ((safeLoad t).manifestType ≠ some "installer" →
      (patchFile serverUrl pub pkg version t).val = t.val) := by
  refine ⟨rfl, ?_, ?_⟩
  · intro hty l hl i hi u hu
    unfold patchFile yamlDump safeLoad patchManifestVal
    unfold safeLoad at hty hl
    simp only [hty, hl, Option.isSome_some, and_true, if_true, Option.map_some,
      Option.getD_some]
    exact List.mem_map.mpr ⟨i, hi, by rw [hu]⟩
  · intro hty
    unfold patchFile yamlDump safeLoad patchManifestVal
    unfold safeLoad at hty
    simp [hty]

/-- An installer manifest holding the section-8 example URL. -/
def exampleInstallerManifest : YamlText :=
  ⟨⟨some "installer",
    some [⟨some "https://example.com/foo/Bar-1.2.3.exe", [("Architecture", "x64")]⟩],
    [("ManifestVersion", "1.6.0")]⟩, []⟩

/-- Witness for `patch_rewrites_installer_urls` at the section-8 example
manifest. -/
theorem patch_rewrites_installer_urls_witness :
    (⟨some "https://mirror.local/downloads/Foo/Bar/1.2.3/Bar-1.2.3.exe",
        [("Architecture", "x64")]⟩ : PatchInstaller) ∈
      ((patchFile "https://mirror.local" "Foo" "Bar" "1.2.3"
          exampleInstallerManifest).val.installers.getD []) :=
  (patch_rewrites_installer_urls "https://mirror.local" "Foo" "Bar" "1.2.3"
      exampleInstallerManifest).2.1 rfl
    [⟨some "https://example.com/foo/Bar-1.2.3.exe", [("Architecture", "x64")]⟩] rfl
    ⟨some "https://example.com/foo/Bar-1.2.3.exe", [("Architecture", "x64")]⟩
    (by decide) "https://example.com/foo/Bar-1.2.3.exe" rfl

end WingetMirror
